import Mathlib

/-!
Verification of the YouTube moderation pipeline against its specification.

The development shallowly embeds the program's core pieces:

* the transcript alignment engine `findTimestampsForPhrase` (and its helper
  `levenshteinDistance`) from the page component;
* the transcript-rendering "assembler" that splits the transcript on flagged
  phrases and highlights them;
* the `/api/transcribe` orchestrator (`POSTtranscribe`) with its
  download / transcribe / moderate / cleanup control flow;
* the `/api/moderate` route that appends a hard-coded addendum to the
  transcript before sending it to the providers.

Times are modelled as rationals (the source uses JS numbers on values such as
0.2 that the timeline carries verbatim), strings as Lean strings restricted to
the ASCII behaviour of `toLowerCase`.
-/

namespace YtMod

/-- The punctuation set stripped by the engine's normalisation:
`/[.,?!;:'"]/g` in the source. The quote characters are written via their
ASCII codes (39 = apostrophe, 34 = double quote). -/
def punctChars : List Char := ['.', ',', '?', '!', ';', ':', Char.ofNat 39, Char.ofNat 34]

/-- Token normalisation: `w.word.toLowerCase().replace(/[.,?!;:'"]/g, '')` —
lower-case and delete the punctuation characters. -/
def normalizeToken (s : String) : String :=
  ((s.toList.map Char.toLower).filter (fun c => ¬ punctChars.contains c)).asString

/-- Split a character list at whitespace runs into its non-empty maximal
words; `cur` accumulates the current word reversed. -/
def wsWords : List Char → List Char → List String
  | cur, [] => if cur = [] then [] else [cur.reverse.asString]
  | cur, c :: cs =>
    if c.isWhitespace then
      if cur = [] then wsWords [] cs else cur.reverse.asString :: wsWords [] cs
    else wsWords (c :: cur) cs

/-- Snippet normalisation and word split:
`phrase.toLowerCase().replace(/[.,?!;:'"]/g, ' ').replace(/\s+/g, ' ').trim().split(' ')`.
In JS, `"".split(' ')` yields `[""]`, so the resulting list is never empty:
an all-punctuation/empty snippet produces the single word `""`. -/
def phraseWords (phrase : String) : List String :=
  let cleaned := (phrase.toList.map Char.toLower).map
    (fun c => if punctChars.contains c then ' ' else c)
  let pieces := wsWords [] cleaned
  if pieces.isEmpty then [""] else pieces

/-- One row update of the Levenshtein dynamic program: given the previous row
and the cell to the left, produce the tail of the current row.
`prev` holds `matrix[i-1][j-1..]`, `left` holds `matrix[i][j-1]`. -/
def levRow (ai : Char) : List Char → Nat → List Nat → List Nat
  | [], _, _ => []
  | _ :: _, _, [] => []
  | bj :: bs, left, diag :: rest =>
    let up := rest.headI
    let cost := if ai = bj then 0 else 1
    let cell := min (min (up + 1) (left + 1)) (diag + cost)
    cell :: levRow ai bs cell rest

/-- Levenshtein distance, mirroring the row-by-row matrix construction of the
source's `levenshteinDistance`. -/
def levenshteinDistance (a b : String) : Nat :=
  let al := a.toList
  let bl := b.toList
  if al.length = 0 then bl.length
  else if bl.length = 0 then al.length
  else
    let firstRow := List.range (bl.length + 1)
    let lastRow := al.enum.foldl
      (fun prev p => (p.1 + 1) :: levRow p.2 bl (p.1 + 1) prev) firstRow
    lastRow.getLastD 0

/-- `hay.includes(needle)` for strings: some suffix of `hay` starts with
`needle`. -/
def containsSub (hay needle : String) : Bool :=
  hay.toList.tails.any (fun t => needle.toList.isPrefixOf t)

/-- Outcome of the per-word comparison inside the window scan. -/
inductive WordCmp
  | wexact
  | wfuzzy
  | wnone
deriving DecidableEq, Repr

/-- The per-word match test of the inner loop, in source order: exact equality
of normalised forms first, then the fuzzy disjunction
(containment either way, or bounded edit distance). -/
def wordMatch (transcriptWord phraseWord : String) : WordCmp :=
  if transcriptWord = phraseWord then .wexact
  else if containsSub transcriptWord phraseWord
      || containsSub phraseWord transcriptWord
      || decide (levenshteinDistance transcriptWord phraseWord
            ≤ min 2 (phraseWord.length / 3)) then .wfuzzy
  else .wnone

/-- The inner loop over one window: walks the phrase words against the
transcript words positionally, short-circuiting at the first non-match.
Returns `(matchCount, fuzzyMatched)`: the number of leading words matched and
whether any of them matched fuzzily. An exhausted transcript list corresponds
to the `wordIndex >= normalizedWords.length` break of the source. -/
def scanWindow : List String → List String → Nat × Bool
  | _, [] => (0, false)
  | [], _ :: _ => (0, false)
  | tw :: tws, pw :: pws =>
    match wordMatch tw pw with
    | .wexact => let r := scanWindow tws pws; (r.1 + 1, r.2)
    | .wfuzzy => let r := scanWindow tws pws; (r.1 + 1, true)
    | .wnone => (0, false)

/-- Window acceptance: `matchCount >= (fuzzyMatched ? 0.8 * M : M)`.
The float comparison `matchCount >= 0.8 * M` on integers is modelled exactly by
`4 * M <= 5 * matchCount`: the double rounding of `0.8 * M` never crosses an
integer (the relative error of the product is below half an ulp), so the two
comparisons agree for every `M`. -/
def acceptsB (r : Nat × Bool) (m : Nat) : Bool :=
  if r.2 then decide (4 * m ≤ 5 * r.1) else decide (m ≤ r.1)

/-- A transcription word of the Deepgram payload. -/
structure TranscriptionWord where
  word : String
  start : ℚ
  endSec : ℚ
  confidence : ℚ
  punctuated_word : String
deriving DecidableEq, Repr

instance : Inhabited TranscriptionWord := ⟨⟨"", 0, 0, 0, ""⟩⟩

/-- The normalised transcript words, as precomputed by the source before the
scan. -/
def normWords (words : List TranscriptionWord) : List String :=
  words.map (fun w => normalizeToken w.word)

/-- The timestamps returned for a window accepted at index `i` with match
count `c`: the start of token `i` and the end of token `i + c - 1`. -/
def mkWindowResult (words : List TranscriptionWord) (c i : Nat) : ℚ × ℚ :=
  ((words.getD i default).start, (words.getD (i + c - 1) default).endSec)

/-- The outer `for` loop of the engine: try windows at `i, i+1, ...` while
fuel (the number of remaining start indices) lasts, returning the first
accepted window's timestamps. -/
def scanLoop (words : List TranscriptionWord) (nws pws : List String) :
    Nat → Nat → Option (ℚ × ℚ)
  | _, 0 => Option.none
  | i, fuel + 1 =>
    let r := scanWindow (nws.drop i) pws
    if acceptsB r pws.length then some (mkWindowResult words r.1 i)
    else scanLoop words nws pws (i + 1) fuel

/-- The alignment engine `findTimestampsForPhrase(phrase, words)` of the page
component: `none` models the JS `null`. -/
def findTimestampsForPhrase (phrase : String) (words : List TranscriptionWord) :
    Option (ℚ × ℚ) :=
  if words.length = 0 then Option.none
  else
    let pws := phraseWords phrase
    if pws.length = 0 then Option.none
    else scanLoop words (normWords words) pws 0 (words.length + 1 - pws.length)

/-- Whether the window starting at token index `i` meets its acceptance
threshold. -/
def acceptedAt (words : List TranscriptionWord) (pws : List String) (i : Nat) : Bool :=
  acceptsB (scanWindow ((normWords words).drop i) pws) pws.length

/-- The match count of the window starting at token index `i`. -/
def matchCountAt (words : List TranscriptionWord) (pws : List String) (i : Nat) : Nat :=
  (scanWindow ((normWords words).drop i) pws).1

/-- `0.2` as a kernel-computable rational (`Rat.ofScientific` does not reduce
in the kernel, `Rat.mk'` on literal numerator/denominator does). -/
def qOneFifth : ℚ := Rat.mk' 1 5 (by norm_num) (by norm_num)

/-- `0.6`. -/
def qThreeFifths : ℚ := Rat.mk' 3 5 (by norm_num) (by norm_num)

/-- `0.9`. -/
def qNineTenths : ℚ := Rat.mk' 9 10 (by norm_num) (by norm_num)

/-- `1.2`. -/
def qSixFifths : ℚ := Rat.mk' 6 5 (by norm_num) (by norm_num)

/-- The spec's example timeline
`[the 0.0-0.2, quick 0.2-0.6, brown 0.6-0.9, fox 0.9-1.2]`. -/
def theQuickWords : List TranscriptionWord :=
  [⟨"the", 0, qOneFifth, 1, "The"⟩,
   ⟨"quick", qOneFifth, qThreeFifths, 1, "quick"⟩,
   ⟨"brown", qThreeFifths, qNineTenths, 1, "brown"⟩,
   ⟨"fox", qNineTenths, qSixFifths, 1, "fox."⟩]

/-- A timeline on which an earlier fuzzy window ("quickly brown") precedes the
exact occurrence of "quick brown" (tokens 2 and 3). -/
def fuzzyTrapWords : List TranscriptionWord :=
  [⟨"quickly", 10, 11, 1, "quickly"⟩,
   ⟨"brown", 12, 13, 1, "brown"⟩,
   ⟨"quick", 14, 15, 1, "quick"⟩,
   ⟨"brown", 16, 17, 1, "brown."⟩]

/-- The outer loop with JS-style partial array indexing made explicit:
`words[i]` and `words[i + matchCount - 1]` are looked up with `getElem?` and
an out-of-bounds access is an `Except.error`, modelling a thrown
`TypeError`. -/
def scanLoopE (words : List TranscriptionWord) (nws pws : List String) :
    Nat → Nat → Except Unit (Option (ℚ × ℚ))
  | _, 0 => .ok Option.none
  | i, fuel + 1 =>
    let r := scanWindow (nws.drop i) pws
    if acceptsB r pws.length then
      match words[i]?, words[i + r.1 - 1]? with
      | some wa, some wb => .ok (some (wa.start, wb.endSec))
      | _, _ => .error ()
    else scanLoopE words nws pws (i + 1) fuel

/-- The alignment engine with explicit partiality: `Except.error` would mean
the JS function threw. -/
def findTimestampsForPhraseE (phrase : String) (words : List TranscriptionWord) :
    Except Unit (Option (ℚ × ℚ)) :=
  if words.length = 0 then .ok Option.none
  else
    let pws := phraseWords phrase
    if pws.length = 0 then .ok Option.none
    else scanLoopE words (normWords words) pws 0 (words.length + 1 - pws.length)

/-! ### The flagging assembler (transcript rendering and detailed analysis) -/

/-- Severity of an inappropriate section. -/
inductive Severity
  | low
  | medium
  | high
deriving DecidableEq, Repr

/-- A flagged candidate as produced by the classification step. -/
structure InappropriateSection where
  text : String
  reason : String
  severity : Severity
deriving DecidableEq, Repr

/-- One rendered piece of the transcript view: highlighted pieces are the
regex-matched flagged phrases; `timestamps` is the alignment engine's result
for them (the tooltip is omitted when it is `none`, but the piece is still
rendered). -/
structure RenderedPart where
  text : String
  highlighted : Bool
  timestamps : Option (ℚ × ℚ)
deriving DecidableEq, Repr

/-- The first phrase of `phrases` (in list order, as a regex alternation
tries alternatives left to right) that is a prefix of `l`. Empty phrases are
not matched: the source never produces them as split separators of interest,
and a zero-width regex match would not consume input. -/
def matchPhraseAt (phrases : List (List Char)) (l : List Char) : Option (List Char) :=
  phrases.find? (fun p => ¬ p.isEmpty && p.isPrefixOf l)

/-- `transcript.split(pattern)` where `pattern` is the alternation of the
escaped phrases with a capture group: the resulting list alternates
non-matching gaps (possibly empty) with matched phrases, scanning left to
right for the leftmost match. `gapRev` is the current gap reversed; `fuel`
bounds the recursion by the remaining input length. -/
def splitByPhrases (phrases : List (List Char)) :
    Nat → List Char → List Char → List String
  | 0, gapRev, rest => [(gapRev.reverse ++ rest).asString]
  | _ + 1, gapRev, [] => [gapRev.reverse.asString]
  | fuel + 1, gapRev, c :: cs =>
    match matchPhraseAt phrases (c :: cs) with
    | some p =>
      gapRev.reverse.asString :: p.asString ::
        splitByPhrases phrases fuel [] ((c :: cs).drop p.length)
    | Option.none => splitByPhrases phrases fuel (c :: gapRev) cs

/-- The transcript-rendering IIFE of the page component: when there are
search phrases, split the transcript on them and mark the pieces that equal a
search phrase as highlighted, attaching the alignment engine's timestamps;
otherwise render the whole transcript as one plain piece. -/
def renderTranscriptParts (transcript : String) (sections : List InappropriateSection)
    (words : List TranscriptionWord) : List RenderedPart :=
  let searchPhrases := sections.map (fun s => s.text)
  if searchPhrases.length > 0 then
    let parts := splitByPhrases (searchPhrases.map String.toList)
      transcript.toList.length [] transcript.toList
    parts.map (fun part =>
      if searchPhrases.contains part then
        { text := part, highlighted := true,
          timestamps := findTimestampsForPhrase part words }
      else { text := part, highlighted := false, timestamps := Option.none })
  else [{ text := transcript, highlighted := false, timestamps := Option.none }]

/-- The "Detailed Analysis" panel: one entry per inappropriate section, in
order, showing its text, reason and severity. -/
def detailedAnalysisEntries (sections : List InappropriateSection) :
    List (String × String × Severity) :=
  sections.map (fun s => (s.text, s.reason, s.severity))

/-! ### The `/api/transcribe` orchestrator -/

/-- The detailed-analysis payload of a moderation result. -/
structure DetailedModerationAnalysis where
  inappropriate_sections : List InappropriateSection
deriving DecidableEq, Repr

/-- The moderation result assembled by `getModerationResults`
(category booleans and scores are kept as association lists). -/
structure ModerationResult where
  flagged : Bool
  categories : List (String × Bool)
  category_scores : List (String × ℚ)
  detailed_analysis : DetailedModerationAnalysis
deriving DecidableEq, Repr

/-- The default result `getModerationResults` returns for an empty
transcript without calling any provider. -/
def emptyModerationResult : ModerationResult :=
  { flagged := false, categories := [], category_scores := [],
    detailed_analysis := { inappropriate_sections := [] } }

/-- `getModerationResults`: for an empty transcript, return the default
without contacting OpenAI; otherwise the outcome is that of the OpenAI
moderation + chat calls, abstracted as `openaiOutcome` (`Except.error` models
a thrown provider error, which this function does not catch). -/
def getModerationResults (openaiOutcome : Except String ModerationResult)
    (transcript : String) : Except String ModerationResult :=
  if transcript = "" then .ok emptyModerationResult else openaiOutcome

/-- A Deepgram alternative; `transcript` is `none` when the field is absent
(JS `undefined`). -/
structure DeepgramAlternative where
  transcript : Option String
deriving DecidableEq, Repr

/-- A Deepgram channel. -/
structure DeepgramChannel where
  alternatives : List DeepgramAlternative
deriving DecidableEq, Repr

/-- A Deepgram transcription payload (`results.channels`). -/
structure DeepgramTranscriptionResult where
  channels : List DeepgramChannel
deriving DecidableEq, Repr

/-- The transcript text the route extracts:
`result?.results?.channels?.[0]?.alternatives?.[0]?.transcript || "No transcript was generated."`
(the `||` default also replaces an empty transcript, which is falsy). -/
def extractTranscriptText (tr : DeepgramTranscriptionResult) : String :=
  match tr.channels.head? with
  | Option.none => "No transcript was generated."
  | some ch =>
    match ch.alternatives.head? with
    | Option.none => "No transcript was generated."
    | some alt =>
      match alt.transcript with
      | Option.none => "No transcript was generated."
      | some t => if t = "" then "No transcript was generated." else t

deriving instance DecidableEq for Except

/-- The outcomes of the effectful stages of one `/api/transcribe` request,
abstracting the external world: each `Except.error` models that stage
throwing with the given message. -/
structure StageOutcomes where
  ensureYtDlp : Except String Unit
  createDirs : Except String Unit
  youtubeUrl : Option String
  download : Except String Unit
  transcribe : Except String DeepgramTranscriptionResult
  moderate : Except String ModerationResult
deriving DecidableEq, Repr

/-- The response of the `/api/transcribe` route handler. -/
inductive TranscribeResponse
  | ok (transcription : DeepgramTranscriptionResult)
      (moderationResults : ModerationResult) (audioUrl : String)
  | badRequest (error : String)
  | serverError (error : String)
deriving DecidableEq, Repr

/-- Whether a response is the success (HTTP 200) shape. -/
def isSuccessResponse : TranscribeResponse → Bool
  | .ok _ _ _ => true
  | _ => false

/-- The transcription carried by a response, if any: error responses carry
only an error message. -/
def responseTranscription : TranscribeResponse → Option DeepgramTranscriptionResult
  | .ok tr _ _ => some tr
  | _ => Option.none

/-- The `POST` handler of `/api/transcribe`: try/catch around
ensure-yt-dlp, directory creation, URL validation, download, transcription
and moderation, with a `finally` that deletes the temporary file when the
temp path was assigned. Returns the response together with whether a file
remains at the run's temporary path. `unlinkOk` says whether the deletion
itself succeeds; a failed deletion is only logged. The temporary file exists
once the download stage has started (the write stream creates it), on
success and failure alike. -/
def POSTtranscribe (o : StageOutcomes) (unlinkOk : Bool) (audioFileName : String) :
    TranscribeResponse × Bool :=
  match o.ensureYtDlp with
  | .error e => (.serverError e, false)
  | .ok _ =>
    match o.createDirs with
    | .error e => (.serverError e, false)
    | .ok _ =>
      match o.youtubeUrl with
      | Option.none => (.badRequest "YouTube URL is required", false)
      | some url =>
        if url = "" then (.badRequest "YouTube URL is required", false)
        else
          let fileAfterCleanup : Bool := if unlinkOk then false else true
          match o.download with
          | .error e => (.serverError e, fileAfterCleanup)
          | .ok _ =>
            match o.transcribe with
            | .error e => (.serverError e, fileAfterCleanup)
            | .ok tr =>
              match getModerationResults o.moderate (extractTranscriptText tr) with
              | .error e => (.serverError e, fileAfterCleanup)
              | .ok md =>
                (.ok tr md ("/audio/" ++ audioFileName), fileAfterCleanup)

/-- A transcription fixture whose transcript is "hello world". -/
def helloTranscription : DeepgramTranscriptionResult :=
  { channels := [{ alternatives := [{ transcript := some "hello world" }] }] }

/-! ### The `/api/moderate` route with the hard-coded addendum -/

/-- The hard-coded string appended to every transcript by the moderation
route. -/
def addendum : String := "But you're a damn racist. I might have to hurt you."

/-- The fixed text surrounding the transcript in the detailed-analysis chat
prompt. -/
def analysisPromptIntro : String := "Analyze this transcript for inappropriate language: \""

/-- The trailing instructions of the detailed-analysis chat prompt. -/
def analysisPromptOutro : String := "\". If inappropriate language is found, respond with a JSON object that includes the following: 1) inappropriate_sections: an array of objects with \"text\" (the inappropriate text), \"reason\" (why it's inappropriate), and \"severity\" (low/medium/high). If no inappropriate language is found, return an empty array."

/-- The response of the `/api/moderate` route. -/
inductive ModRouteResponse
  | badRequest (error : String)
  | ok (flagged : Bool) (sections : List InappropriateSection)
deriving DecidableEq, Repr

/-- The `POST` handler of the moderation route: reject a missing or empty
(falsy) transcript; otherwise call the moderation endpoint on
`transcript + addendum` and the chat model on the prompt built around
`transcript + addendum`, and return their results. The two providers are
abstracted as functions of the submitted text. -/
def moderateRoutePOST (moderationApi : String → Bool)
    (chatApi : String → List InappropriateSection)
    (transcript : Option String) : ModRouteResponse :=
  match transcript with
  | Option.none => .badRequest "Transcript is required"
  | some t =>
    if t = "" then .badRequest "Transcript is required"
    else
      .ok (moderationApi (t ++ addendum))
        (chatApi (analysisPromptIntro ++ (t ++ addendum) ++ analysisPromptOutro))

/-- A single flagged candidate whose text does not occur verbatim in the
transcript used alongside it. -/
def cexSections : List InappropriateSection :=
  [⟨"xyz", "profanity", Severity.high⟩]

/-- Stage outcomes for a run whose download, transcription and URL handling
succeed while the classification provider throws. -/
def classificationDownOutcomes : StageOutcomes :=
  { ensureYtDlp := .ok (), createDirs := .ok (),
    youtubeUrl := some "https://www.youtube.com/watch?v=abc",
    download := .ok (), transcribe := .ok helloTranscription,
    moderate := .error "classification unavailable" }

/-! ### Helper lemmas about the window scan -/

lemma wordMatch_self (w : String) : wordMatch w w = WordCmp.wexact := by
  simp [wordMatch]

lemma scanWindow_fst_le (tws pws : List String) :
    (scanWindow tws pws).1 ≤ pws.length := by
  induction pws generalizing tws with
  | nil => cases tws <;> simp [scanWindow]
  | cons p ps ih =>
    cases tws with
    | nil => simp [scanWindow]
    | cons t ts =>
      have := ih ts
      cases hw : wordMatch t p <;> simp [scanWindow, hw] <;> omega

lemma scanWindow_of_take_eq (tws pws : List String)
    (h : tws.take pws.length = pws) :
    scanWindow tws pws = (pws.length, false) := by
  induction pws generalizing tws with
  | nil => cases tws <;> simp [scanWindow]
  | cons p ps ih =>
    cases tws with
    | nil => simp at h
    | cons t ts =>
      rw [List.length_cons, List.take_succ_cons, List.cons.injEq] at h
      obtain ⟨rfl, hts⟩ := h
      simp [scanWindow, wordMatch_self, ih ts hts]

lemma accepts_of_full (m : Nat) (b : Bool) : acceptsB (m, b) m = true := by
  cases b
  · simp [acceptsB]
  · simp [acceptsB]; omega

lemma accepts_one_le (r : Nat × Bool) (m : Nat)
    (h : acceptsB r m = true) (hm : 1 ≤ m) : 1 ≤ r.1 := by
  unfold acceptsB at h
  cases hr : r.2
  · rw [hr] at h; simp at h; omega
  · rw [hr] at h; simp at h; omega

lemma phraseWords_ne_nil (s : String) : phraseWords s ≠ [] := by
  simp only [phraseWords]
  split
  · simp
  · next h => simpa [List.isEmpty_iff] using h

lemma phraseWords_length_pos (s : String) : 1 ≤ (phraseWords s).length :=
  List.length_pos.mpr (phraseWords_ne_nil s)

lemma scanLoop_eq_some_iff (words : List TranscriptionWord) (pws : List String)
    (fuel : Nat) :
    ∀ i res, scanLoop words (normWords words) pws i fuel = some res ↔
      ∃ k, k < fuel ∧ acceptedAt words pws (i + k) = true ∧
        (∀ j, j < k → acceptedAt words pws (i + j) = false) ∧
        res = mkWindowResult words (matchCountAt words pws (i + k)) (i + k) := by
  induction fuel with
  | zero => intro i res; simp [scanLoop]
  | succ fuel ih =>
    intro i res
    rw [scanLoop]
    by_cases hacc : acceptedAt words pws i = true
    · rw [if_pos (by simpa [acceptedAt] using hacc)]
      constructor
      · intro h
        refine ⟨0, by omega, by simpa using hacc, by omega, ?_⟩
        simpa [matchCountAt] using h.symm
      · rintro ⟨k, _, hak, hmin, hres⟩
        have hk0 : k = 0 := by
          by_contra hne
          have h0 := hmin 0 (by omega)
          rw [Nat.add_zero] at h0
          rw [hacc] at h0
          exact Bool.true_eq_false.mp h0
        subst hk0
        rw [Nat.add_zero] at hres
        simp only [Option.some.injEq]
        simpa [matchCountAt] using hres.symm
    · have haccf : acceptedAt words pws i = false := by
        simpa using hacc
      rw [if_neg (by simpa [acceptedAt] using hacc)]
      rw [ih (i + 1) res]
      constructor
      · rintro ⟨k, hk, hak, hmin, hres⟩
        refine ⟨k + 1, by omega, ?_, ?_, ?_⟩
        · rw [show i + (k + 1) = i + 1 + k by omega]; exact hak
        · intro j hj
          cases j with
          | zero => simpa using haccf
          | succ j' =>
            rw [show i + (j' + 1) = i + 1 + j' by omega]
            exact hmin j' (by omega)
        · rw [show i + (k + 1) = i + 1 + k by omega]; exact hres
      · rintro ⟨k, hk, hak, hmin, hres⟩
        have hkpos : k ≠ 0 := by
          rintro rfl
          rw [Nat.add_zero] at hak
          rw [hak] at haccf
          exact Bool.true_eq_false.mp haccf
        obtain ⟨k', rfl⟩ : ∃ k', k = k' + 1 := ⟨k - 1, by omega⟩
        refine ⟨k', by omega, ?_, ?_, ?_⟩
        · rw [show i + 1 + k' = i + (k' + 1) by omega]; exact hak
        · intro j hj
          rw [show i + 1 + j = i + (j + 1) by omega]
          exact hmin (j + 1) (by omega)
        · rw [show i + 1 + k' = i + (k' + 1) by omega]; exact hres

lemma findTimestamps_eq_some_iff (phrase : String)
    (words : List TranscriptionWord) (res : ℚ × ℚ) :
    findTimestampsForPhrase phrase words = some res ↔
      ∃ i, i + (phraseWords phrase).length ≤ words.length ∧
        acceptedAt words (phraseWords phrase) i = true ∧
        (∀ j, j < i → acceptedAt words (phraseWords phrase) j = false) ∧
        res = mkWindowResult words (matchCountAt words (phraseWords phrase) i) i := by
  have hM : 1 ≤ (phraseWords phrase).length := phraseWords_length_pos phrase
  unfold findTimestampsForPhrase
  by_cases hw : words.length = 0
  · rw [if_pos hw]
    constructor
    · intro h; exact absurd h (by simp)
    · rintro ⟨i, hi, -⟩; omega
  · rw [if_neg hw]
    rw [if_neg (by omega)]
    rw [scanLoop_eq_some_iff words (phraseWords phrase) _ 0 res]
    constructor
    · rintro ⟨k, hk, hak, hmin, hres⟩
      refine ⟨k, by omega, by simpa using hak, ?_, by simpa using hres⟩
      intro j hj
      have := hmin j hj
      simpa using this
    · rintro ⟨i, hi, hai, hmin, hres⟩
      exact ⟨i, by omega, by simpa using hai, fun j hj => by simpa using hmin j hj,
        by simpa using hres⟩

lemma findTimestamps_eq_some_of_first (phrase : String)
    (words : List TranscriptionWord) (i : Nat)
    (hiM : i + (phraseWords phrase).length ≤ words.length)
    (hacc : acceptedAt words (phraseWords phrase) i = true)
    (hmin : ∀ j, j < i → acceptedAt words (phraseWords phrase) j = false) :
    findTimestampsForPhrase phrase words
      = some (mkWindowResult words (matchCountAt words (phraseWords phrase) i) i) :=
  (findTimestamps_eq_some_iff phrase words _).mpr ⟨i, hiM, hacc, hmin, rfl⟩

lemma findTimestamps_isSome_of_accepted (phrase : String)
    (words : List TranscriptionWord) (i : Nat)
    (hiM : i + (phraseWords phrase).length ≤ words.length)
    (hacc : acceptedAt words (phraseWords phrase) i = true) :
    (findTimestampsForPhrase phrase words).isSome = true := by
  have hex : ∃ k, acceptedAt words (phraseWords phrase) k = true := ⟨i, hacc⟩
  have hspec := Nat.find_spec hex
  have hle : Nat.find hex ≤ i := Nat.find_min' hex hacc
  have hmin : ∀ j, j < Nat.find hex → acceptedAt words (phraseWords phrase) j = false := by
    intro j hj
    have := Nat.find_min hex hj
    simpa using this
  rw [findTimestamps_eq_some_of_first phrase words (Nat.find hex) (by omega) hspec hmin]
  rfl

lemma normWords_length (words : List TranscriptionWord) :
    (normWords words).length = words.length := by
  simp [normWords]

lemma getD_drop (l : List String) (i j : Nat) (d : String) :
    (l.drop i).getD j d = l.getD (i + j) d := by
  simp [List.getD_eq_getElem?_getD, List.getElem?_drop]

lemma scanLoopE_eq_ok (words : List TranscriptionWord) (pws : List String)
    (hM : 1 ≤ pws.length) (fuel : Nat) :
    ∀ i, i + fuel ≤ words.length + 1 - pws.length →
      scanLoopE words (normWords words) pws i fuel
        = .ok (scanLoop words (normWords words) pws i fuel) := by
  induction fuel with
  | zero => intro i _; rfl
  | succ fuel ih =>
    intro i hi
    simp only [scanLoopE, scanLoop]
    by_cases hacc : acceptsB (scanWindow ((normWords words).drop i) pws) pws.length = true
    · rw [if_pos hacc, if_pos hacc]
      have hc1 : 1 ≤ (scanWindow ((normWords words).drop i) pws).1 :=
        accepts_one_le _ _ hacc hM
      have hcM : (scanWindow ((normWords words).drop i) pws).1 ≤ pws.length :=
        scanWindow_fst_le _ _
      have h1 : i < words.length := by omega
      have h2 : i + (scanWindow ((normWords words).drop i) pws).1 - 1 < words.length := by
        omega
      rw [List.getElem?_eq_getElem h1, List.getElem?_eq_getElem h2]
      simp [mkWindowResult, List.getD_eq_getElem?_getD,
        List.getElem?_eq_getElem h1, List.getElem?_eq_getElem h2]
    · rw [if_neg hacc, if_neg hacc]
      exact ih (i + 1) (by omega)

lemma findTimestampsE_eq_ok (phrase : String) (words : List TranscriptionWord) :
    findTimestampsForPhraseE phrase words
      = .ok (findTimestampsForPhrase phrase words) := by
  simp only [findTimestampsForPhraseE, findTimestampsForPhrase]
  by_cases hw : words.length = 0
  · rw [if_pos hw, if_pos hw]
  · have hM := phraseWords_length_pos phrase
    rw [if_neg hw, if_neg hw, if_neg (by omega), if_neg (by omega)]
    exact scanLoopE_eq_ok words (phraseWords phrase) hM _ 0 (by omega)

lemma scanWindow_all_match (tws pws : List String)
    (hlen : pws.length ≤ tws.length)
    (hall : ∀ j, j < pws.length →
      wordMatch (tws.getD j "") (pws.getD j "") ≠ WordCmp.wnone) :
    (scanWindow tws pws).1 = pws.length := by
  induction pws generalizing tws with
  | nil => cases tws <;> simp [scanWindow]
  | cons p ps ih =>
    cases tws with
    | nil => simp at hlen
    | cons t ts =>
      have h0 := hall 0 (by simp)
      have hrec : (scanWindow ts ps).1 = ps.length := by
        apply ih
        · simpa using hlen
        · intro j hj
          have := hall (j + 1) (by simpa using Nat.succ_lt_succ hj)
          simpa using this
      cases hw : wordMatch t p with
      | wexact => simp [scanWindow, hw, hrec]
      | wfuzzy => simp [scanWindow, hw, hrec]
      | wnone => exact absurd hw (by simpa using h0)

lemma qOneFifth_eq : qOneFifth = 0.2 := by
  norm_num [qOneFifth, Rat.mk'_eq_divInt, Rat.divInt_eq_div]

lemma qNineTenths_eq : qNineTenths = 0.9 := by
  norm_num [qNineTenths, Rat.mk'_eq_divInt, Rat.divInt_eq_div]

lemma getD_mem (l : List TranscriptionWord) (n : Nat) (h : n < l.length) :
    l.getD n default ∈ l := by
  rw [List.getD_eq_getElem?_getD, List.getElem?_eq_getElem h]
  exact List.getElem_mem h

lemma extractTranscriptText_ne_empty (tr : DeepgramTranscriptionResult) :
    extractTranscriptText tr ≠ "" := by
  unfold extractTranscriptText
  repeat' split
  all_goals first | decide | assumption

/-! ### Claim theorems -/

/-- C3: `findTimestampsForPhrase` returns timestamps exactly for the first
(lowest start index) window meeting its acceptance threshold (`acceptedAt`:
match count at least `0.8 * M` when any word matched fuzzily, the full `M`
otherwise), with startSec read from token `i` and endSec from token
`i + matchCount - 1` of the timeline; no window with a smaller start index
meets its threshold. -/
theorem locate_returns_first_accepted_window (phrase : String)
    (words : List TranscriptionWord) (res : ℚ × ℚ) :
    findTimestampsForPhrase phrase words = some res ↔
      ∃ i, i + (phraseWords phrase).length ≤ words.length ∧
        acceptedAt words (phraseWords phrase) i = true ∧
        (∀ j, j < i → acceptedAt words (phraseWords phrase) j = false) ∧
        res = ((words.getD i default).start,
          (words.getD (i + matchCountAt words (phraseWords phrase) i - 1)
            default).endSec) := by
  simpa [mkWindowResult] using findTimestamps_eq_some_iff phrase words res

/-- C2 counterexample: on `fuzzyTrapWords` the snippet "quick brown" occurs
word-for-word at tokens 2-3 (times 14 to 17), yet the engine returns the
timestamps of the earlier fuzzy window "quickly brown" at tokens 0-1
(times 10 to 13), not those of the exact occurrence. -/
theorem exact_subsequence_cex :
    ((normWords fuzzyTrapWords).drop 2).take 2 = phraseWords "quick brown" ∧
    findTimestampsForPhrase "quick brown" fuzzyTrapWords = some (10, 13) ∧
    ((10 : ℚ), (13 : ℚ)) ≠ ((fuzzyTrapWords.getD 2 default).start,
      (fuzzyTrapWords.getD 3 default).endSec) :=
  ⟨by decide, by decide, by decide⟩

/-- C2 amended: if the normalised tokens starting at index `i` equal the
normalised snippet words word-for-word and no window with a smaller start
index meets its acceptance threshold, the engine returns the start time of
token `i` and the end time of token `i + M - 1`. -/
theorem exact_window_first_match (phrase : String)
    (words : List TranscriptionWord) (i : Nat)
    (hwin : ((normWords words).drop i).take (phraseWords phrase).length
      = phraseWords phrase)
    (hiM : i + (phraseWords phrase).length ≤ words.length)
    (hmin : ∀ j, j < i → acceptedAt words (phraseWords phrase) j = false) :
    findTimestampsForPhrase phrase words
      = some ((words.getD i default).start,
          (words.getD (i + (phraseWords phrase).length - 1) default).endSec) := by
  have hscan : scanWindow ((normWords words).drop i) (phraseWords phrase)
      = ((phraseWords phrase).length, false) :=
    scanWindow_of_take_eq _ _ hwin
  have hacc : acceptedAt words (phraseWords phrase) i = true := by
    rw [acceptedAt, hscan]
    exact accepts_of_full _ _
  rw [findTimestamps_eq_some_of_first phrase words i hiM hacc hmin]
  simp [mkWindowResult, matchCountAt, hscan]

/-- C2 witness: the spec's own scenario — snippet "quick brown" on the
the/quick/brown/fox timeline matches at tokens 1-2, yielding
startSec 0.2 and endSec 0.9. -/
theorem exact_window_first_match_witness :
    findTimestampsForPhrase "quick brown" theQuickWords = some (0.2, 0.9) := by
  have h := exact_window_first_match "quick brown" theQuickWords 1
    (by decide) (by decide) (by decide)
  have hlen : (phraseWords "quick brown").length = 2 := by decide
  rw [hlen] at h
  rw [h]
  norm_num [theQuickWords, qOneFifth_eq, qNineTenths_eq]

/-- C4: code evaluation at the failing input — the empty snippet on the
spec's non-empty example timeline. In JS `"".split(' ')` is `[""]`, so the
engine's empty-target-words guard never fires; the single empty target word
matches the first token by containment, and the engine returns the first
token's timestamps instead of reporting no match. -/
theorem empty_snippet_matches_first_token :
    phraseWords "" = [""] ∧
    findTimestampsForPhrase "" theQuickWords = some (0, qOneFifth) :=
  ⟨by decide, by decide⟩

/-- C5: the per-word match test succeeds exactly for (a) equal normalised
forms, or (b) containment either way, or (c) Levenshtein distance at most
`min 2 (target length / 3)`, with exact equality tested first and any other
case aborting the window; consequently a window whose words all match
exactly except one with a one-character typo against a target word of length
at least 4 still yields a found result via a fuzzy match. -/
theorem per_word_match_rules :
    (∀ tw pw : String,
      (wordMatch tw pw = WordCmp.wexact ↔ tw = pw) ∧
      (wordMatch tw pw ≠ WordCmp.wnone ↔
        (tw = pw ∨ containsSub tw pw = true ∨ containsSub pw tw = true ∨
          levenshteinDistance tw pw ≤ min 2 (pw.length / 3))) ∧
      (∀ tws pws, wordMatch tw pw = WordCmp.wnone →
        scanWindow (tw :: tws) (pw :: pws) = (0, false))) ∧
    (∀ (phrase : String) (words : List TranscriptionWord) (i k : Nat),
      k < (phraseWords phrase).length →
      i + (phraseWords phrase).length ≤ words.length →
      (∀ j, j < (phraseWords phrase).length → j ≠ k →
        (normWords words).getD (i + j) "" = (phraseWords phrase).getD j "") →
      levenshteinDistance ((normWords words).getD (i + k) "")
        ((phraseWords phrase).getD k "") = 1 →
      4 ≤ ((phraseWords phrase).getD k "").length →
      (findTimestampsForPhrase phrase words).isSome = true) := by
  constructor
  · intro tw pw
    refine ⟨⟨?_, ?_⟩, ?_, ?_⟩
    · intro h
      by_contra hne
      unfold wordMatch at h
      rw [if_neg hne] at h
      split_ifs at h
    · intro h; rw [h]; exact wordMatch_self pw
    · unfold wordMatch
      split_ifs with h1 h2
      · simp [h1]
      · simp only [ne_eq, reduceCtorEq, not_false_iff, true_iff]
        rcases Bool.or_eq_true _ _ |>.mp h2 with h | h
        · rcases Bool.or_eq_true _ _ |>.mp h with h' | h'
          · exact Or.inr (Or.inl h')
          · exact Or.inr (Or.inr (Or.inl h'))
        · exact Or.inr (Or.inr (Or.inr (of_decide_eq_true h)))
      · constructor
        · intro h; exact absurd rfl h
        · intro h
          exfalso
          rcases h with h | h | h | h
          · exact h1 h
          · exact h2 (by simp [h])
          · exact h2 (by simp [h])
          · exact h2 (by simp [h])
    · intro tws pws h
      simp [scanWindow, h]
  · intro phrase words i k hk hiM hexact hlev hlen4
    apply findTimestamps_isSome_of_accepted phrase words i hiM
    have hlen : (phraseWords phrase).length ≤ ((normWords words).drop i).length := by
      rw [List.length_drop, normWords_length]; omega
    have hall : ∀ j, j < (phraseWords phrase).length →
        wordMatch (((normWords words).drop i).getD j "")
          ((phraseWords phrase).getD j "") ≠ WordCmp.wnone := by
      intro j hj
      rw [getD_drop]
      by_cases hjk : j = k
      · subst hjk
        unfold wordMatch
        split_ifs with h1 h2
        · simp
        · simp
        · exfalso
          apply h2
          have hbound : levenshteinDistance ((normWords words).getD (i + j) "")
              ((phraseWords phrase).getD j "")
                ≤ min 2 (((phraseWords phrase).getD j "").length / 3) := by
            rw [hlev]
            exact le_min (by omega) (by omega)
          simp only [Bool.or_eq_true, decide_eq_true_eq]
          right
          exact hbound
      · rw [hexact j hj hjk, wordMatch_self]
        simp
    have hcount := scanWindow_all_match _ _ hlen hall
    rw [acceptedAt]
    rcases hsw : scanWindow ((normWords words).drop i) (phraseWords phrase) with ⟨c, b⟩
    rw [hsw] at hcount
    simp only at hcount
    rw [hcount]
    exact accepts_of_full _ b

/-- C5 witness: the spec's typo scenario — "quik brown" (edit distance 1 to
"quick", target length 4) on the example timeline is still found, and the
window used a fuzzy match. -/
theorem per_word_match_rules_witness :
    (findTimestampsForPhrase "quik brown" theQuickWords).isSome = true :=
  per_word_match_rules.2 "quik brown" theQuickWords 1 0
    (by decide) (by decide) (by decide) (by decide) (by decide)

/-- C8: on a timeline whose tokens each satisfy `start ≤ endSec` and whose
start times are non-decreasing, any found result satisfies
`startSec ≤ endSec`, and both values are boundaries of actual tokens of the
timeline (the start of the window's first token, the end of its last matched
token). -/
theorem found_result_within_timeline (phrase : String)
    (words : List TranscriptionWord) (res : ℚ × ℚ)
    (hse : ∀ w ∈ words, w.start ≤ w.endSec)
    (hmono : List.Chain' (fun a b => a.start ≤ b.start) words)
    (hres : findTimestampsForPhrase phrase words = some res) :
    res.1 ≤ res.2 ∧
    ∃ ia ib, ia ≤ ib ∧ ib < words.length ∧
      res.1 = (words.getD ia default).start ∧
      res.2 = (words.getD ib default).endSec := by
  obtain ⟨i, hiM, hacc, -, hres'⟩ := (findTimestamps_eq_some_iff phrase words res).mp hres
  have hM := phraseWords_length_pos phrase
  have hc1 : 1 ≤ matchCountAt words (phraseWords phrase) i :=
    accepts_one_le _ _ hacc hM
  have hcM : matchCountAt words (phraseWords phrase) i ≤ (phraseWords phrase).length :=
    scanWindow_fst_le _ _
  set c := matchCountAt words (phraseWords phrase) i with hc
  have hia : i < words.length := by omega
  have hib : i + c - 1 < words.length := by omega
  have hle : i ≤ i + c - 1 := by omega
  have hpair : (words.getD i default).start ≤ (words.getD (i + c - 1) default).start := by
    rcases Nat.eq_or_lt_of_le hle with heq | hlt
    · rw [← heq]
    · haveI : IsTrans TranscriptionWord (fun a b => a.start ≤ b.start) :=
        ⟨fun _ _ _ hab hbc => le_trans hab hbc⟩
      have hpw : words.Pairwise (fun a b => a.start ≤ b.start) :=
        List.chain'_iff_pairwise.mp hmono
      have := List.pairwise_iff_get.mp hpw ⟨i, hia⟩ ⟨i + c - 1, hib⟩ hlt
      simpa [List.get_eq_getElem, List.getD_eq_getElem?_getD,
        List.getElem?_eq_getElem, hia, hib] using this
  have hend : (words.getD (i + c - 1) default).start
      ≤ (words.getD (i + c - 1) default).endSec :=
    hse _ (getD_mem words _ hib)
  subst hres'
  exact ⟨le_trans hpair hend, i, i + c - 1, hle, hib, rfl, rfl⟩

/-- C8 witness: the found result (0.2, 0.9) for "quick brown" on the example
timeline satisfies the invariant. -/
theorem found_result_within_timeline_witness :
    ((qOneFifth, qNineTenths) : ℚ × ℚ).1 ≤ ((qOneFifth, qNineTenths) : ℚ × ℚ).2 ∧
    ∃ ia ib, ia ≤ ib ∧ ib < theQuickWords.length ∧
      ((qOneFifth, qNineTenths) : ℚ × ℚ).1 = (theQuickWords.getD ia default).start ∧
      ((qOneFifth, qNineTenths) : ℚ × ℚ).2 = (theQuickWords.getD ib default).endSec :=
  found_result_within_timeline "quick brown" theQuickWords (qOneFifth, qNineTenths)
    (by decide)
    (by
      simp only [theQuickWords, List.chain'_cons, List.chain'_singleton, and_true]
      exact ⟨by decide, by decide, by decide⟩)
    (by decide)

/-- C9: the engine is total — with JS array indexing modelled as partial
(`findTimestampsForPhraseE`), every input yields `Except.ok` of the total
function's found/not-found result, never an exception — and on the empty
timeline every non-empty snippet yields no match. -/
theorem locate_never_throws :
    (∀ (phrase : String) (words : List TranscriptionWord),
      findTimestampsForPhraseE phrase words
        = .ok (findTimestampsForPhrase phrase words)) ∧
    (∀ phrase : String, phrase ≠ "" →
      findTimestampsForPhrase phrase [] = Option.none) :=
  ⟨findTimestampsE_eq_ok, fun _ _ => rfl⟩

/-- C9 witness: concrete instances of both conjuncts. -/
theorem locate_never_throws_witness :
    findTimestampsForPhraseE "quick brown" theQuickWords
      = .ok (findTimestampsForPhrase "quick brown" theQuickWords) ∧
    findTimestampsForPhrase "purple elephant" [] = Option.none :=
  ⟨locate_never_throws.1 "quick brown" theQuickWords,
   locate_never_throws.2 "purple elephant" (by decide)⟩

/-- C7 counterexample: with one flagged candidate whose text "xyz" does not
occur verbatim in the transcript "hello world", the highlighted-transcript
rendering produces zero highlighted segments, not one per candidate. -/
theorem assembler_count_cex :
    ¬ (((renderTranscriptParts "hello world" cexSections []).filter
        (fun p => p.highlighted)).length = cexSections.length) := by decide

/-- C7 amended: the Detailed Analysis panel emits exactly one entry per
FlaggedCandidate in classification order; the highlighted-transcript view
instead derives its pieces solely from the transcript and the candidate
texts (the alignment results never add or remove pieces, so an occurrence
whose alignment fails is still rendered, merely without timestamps), and
every highlighted piece's text is one of the candidates' texts. -/
theorem assembler_amended :
    (∀ sections : List InappropriateSection,
      (detailedAnalysisEntries sections).length = sections.length ∧
      ∀ j : Nat, (detailedAnalysisEntries sections)[j]?
        = (sections[j]?).map (fun s => (s.text, s.reason, s.severity))) ∧
    (∀ (transcript : String) (sections : List InappropriateSection)
        (w₁ w₂ : List TranscriptionWord),
      (renderTranscriptParts transcript sections w₁).map
          (fun p => (p.text, p.highlighted))
        = (renderTranscriptParts transcript sections w₂).map
            (fun p => (p.text, p.highlighted))) ∧
    (∀ (transcript : String) (sections : List InappropriateSection)
        (words : List TranscriptionWord) (p : RenderedPart),
      p ∈ renderTranscriptParts transcript sections words → p.highlighted = true →
      p.text ∈ sections.map (fun s => s.text)) := by
  refine ⟨?_, ?_, ?_⟩
  · intro sections
    exact ⟨by simp [detailedAnalysisEntries], fun j => by simp [detailedAnalysisEntries]⟩
  · intro transcript sections w₁ w₂
    simp only [renderTranscriptParts]
    split
    · simp only [List.map_map]
      apply List.map_congr_left
      intro part _
      simp only [Function.comp_apply]
      by_cases h : (sections.map (fun s => s.text)).contains part
      · rw [if_pos h, if_pos h]
      · rw [if_neg h, if_neg h]
    · rfl
  · intro transcript sections words p hp hhl
    simp only [renderTranscriptParts] at hp
    split at hp
    · rw [List.mem_map] at hp
      obtain ⟨part, -, hpeq⟩ := hp
      by_cases hc : (sections.map (fun s => s.text)).contains part
      · rw [if_pos hc] at hpeq
        rw [← hpeq]
        simpa using hc
      · rw [if_neg hc] at hpeq
        rw [← hpeq] at hhl
        exact absurd hhl (by simp)
    · rw [List.mem_singleton] at hp
      rw [hp] at hhl
      exact absurd hhl (by simp)

/-- C7 amended witness: on transcript "you fool now" with the single
candidate "fool" and an empty timeline, the highlighted piece "fool" (whose
alignment returns no timestamps) is rendered and its text is among the
candidates' texts. -/
theorem assembler_amended_witness :
    (RenderedPart.mk "fool" true Option.none).text
      ∈ ([⟨"fool", "insult", Severity.low⟩] : List InappropriateSection).map
          (fun s => s.text) :=
  assembler_amended.2.2 "you fool now" [⟨"fool", "insult", Severity.low⟩] []
    ⟨"fool", true, Option.none⟩ (by decide) rfl

/-- C1 counterexample: a run whose transcription succeeded (transcript
"hello world") but whose classification call throws is surfaced to the
caller as a server-error response carrying no transcript, not as a completed
result with a classification-unavailable marker. -/
theorem classification_error_cex :
    (POSTtranscribe classificationDownOutcomes true "a.mp3").1
      = TranscribeResponse.serverError "classification unavailable" ∧
    isSuccessResponse (POSTtranscribe classificationDownOutcomes true "a.mp3").1
      = false ∧
    responseTranscription (POSTtranscribe classificationDownOutcomes true "a.mp3").1
      = Option.none :=
  ⟨rfl, rfl, rfl⟩

/-- C1 amended: when the moderation call throws after a transcript was
obtained, the error propagates to the route's catch-all: the run returns a
server-error response carrying only the error message — the transcript is
discarded and no classification-availability marker exists — while the
`finally` cleanup still removes the temporary file when deletion succeeds. -/
theorem classification_error_surfaces_as_failure (url name e : String)
    (tr : DeepgramTranscriptionResult) (u : Bool) (hurl : url ≠ "") :
    POSTtranscribe
      { ensureYtDlp := .ok (), createDirs := .ok (), youtubeUrl := some url,
        download := .ok (), transcribe := .ok tr, moderate := .error e } u name
      = (.serverError e, !u) := by
  simp only [POSTtranscribe]
  rw [if_neg hurl]
  have ht : extractTranscriptText tr ≠ "" := extractTranscriptText_ne_empty tr
  simp only [getModerationResults, if_neg ht]
  cases u <;> rfl

/-- C1 amended witness. -/
theorem classification_error_surfaces_as_failure_witness :
    POSTtranscribe
      { ensureYtDlp := .ok (), createDirs := .ok (),
        youtubeUrl := some "https://www.youtube.com/watch?v=abc",
        download := .ok (), transcribe := .ok helloTranscription,
        moderate := .error "classification unavailable" } true "a.mp3"
      = (.serverError "classification unavailable", !true) :=
  classification_error_surfaces_as_failure _ _ _ _ _ (by decide)

/-- C6: a download-stage error makes the run fail with that error and, when
the deletion itself succeeds, no file remains at the run's temporary path
(`false` in the second component); and the cleanup outcome (`unlinkOk`)
never changes the response surfaced to the caller, on any run. -/
theorem download_error_cleanup :
    (∀ (url e name : String) (trOutcome : Except String DeepgramTranscriptionResult)
        (mdOutcome : Except String ModerationResult) (u : Bool), url ≠ "" →
      POSTtranscribe
        { ensureYtDlp := .ok (), createDirs := .ok (), youtubeUrl := some url,
          download := .error e, transcribe := trOutcome, moderate := mdOutcome } u name
        = (.serverError e, !u)) ∧
    (∀ (o : StageOutcomes) (u₁ u₂ : Bool) (name : String),
      (POSTtranscribe o u₁ name).1 = (POSTtranscribe o u₂ name).1) := by
  constructor
  · intro url e name trO mdO u hurl
    simp only [POSTtranscribe]
    rw [if_neg hurl]
    cases u <;> rfl
  · intro o u₁ u₂ name
    rcases o with ⟨ey, cd, yu, dl, tr, md⟩
    cases ey with
    | error e => rfl
    | ok _ =>
      cases cd with
      | error e => rfl
      | ok _ =>
        cases yu with
        | none => rfl
        | some url =>
          by_cases hurl : url = ""
          · simp only [POSTtranscribe]
            rw [if_pos hurl, if_pos hurl]
          · simp only [POSTtranscribe]
            rw [if_neg hurl, if_neg hurl]
            cases dl with
            | error e => rfl
            | ok _ =>
              cases tr with
              | error e => rfl
              | ok tr' =>
                dsimp only
                cases getModerationResults md (extractTranscriptText tr') <;> rfl

/-- C6 witness: a concrete download failure after the write stream created
the temporary file — the run fails with the download error, the file is
gone when deletion succeeds, and a failed deletion does not change the
response. -/
theorem download_error_cleanup_witness :
    POSTtranscribe
      { ensureYtDlp := .ok (), createDirs := .ok (),
        youtubeUrl := some "https://www.youtube.com/watch?v=abc",
        download := .error "Download failed: network error",
        transcribe := .error "unreached", moderate := .error "unreached" } true "a.mp3"
      = (.serverError "Download failed: network error", !true) ∧
    (POSTtranscribe
      { ensureYtDlp := .ok (), createDirs := .ok (),
        youtubeUrl := some "https://www.youtube.com/watch?v=abc",
        download := .error "Download failed: network error",
        transcribe := .error "unreached", moderate := .error "unreached" } false "a.mp3").1
      = (POSTtranscribe
      { ensureYtDlp := .ok (), createDirs := .ok (),
        youtubeUrl := some "https://www.youtube.com/watch?v=abc",
        download := .error "Download failed: network error",
        transcribe := .error "unreached", moderate := .error "unreached" } true "a.mp3").1 :=
  ⟨download_error_cleanup.1 _ _ _ _ _ true (by decide),
   download_error_cleanup.2 _ false true _⟩

/-- C10: for every non-empty transcript, the moderation route submits
`transcript ++ addendum` to the moderation endpoint and embeds the same
concatenation in the detailed-analysis chat prompt, so both verdicts are
computed over the transcript plus the hard-coded addendum. -/
theorem moderate_route_appends_addendum
    (moderationApi : String → Bool) (chatApi : String → List InappropriateSection)
    (t : String) (ht : t ≠ "") :
    moderateRoutePOST moderationApi chatApi (some t)
      = .ok (moderationApi (t ++ addendum))
          (chatApi (analysisPromptIntro ++ (t ++ addendum) ++ analysisPromptOutro)) := by
  simp [moderateRoutePOST, ht]

/-- C10 witness: with providers that echo their input, the route's output
exhibits the concatenated text. -/
theorem moderate_route_appends_addendum_witness :
    moderateRoutePOST (fun s => s == "hello" ++ addendum)
      (fun s => [⟨s, "prompt", Severity.low⟩]) (some "hello")
      = .ok true
          [⟨analysisPromptIntro ++ ("hello" ++ addendum) ++ analysisPromptOutro,
            "prompt", Severity.low⟩] := by
  rw [moderate_route_appends_addendum (fun s => s == "hello" ++ addendum)
    (fun s => [⟨s, "prompt", Severity.low⟩]) "hello" (by decide)]
  simp

end YtMod
